import Mathlib

/-!
Verification of the games engine of the Django-Games repository:
the tic-tac-toe outcome evaluator and opponent policy
(`games/tic-tac-toe.py`), the rock-paper-scissors round
(`games/rock_ paper_ scissors.py`), the number-guessing round
(`games/number_gussing_game.py`), and the score ledger with its
personal-best and aggregate bookkeeping (`games/models.py`).

Board cells are modelled by the spec's cell domain {empty, X, O};
boards are lists of cells, indexed as in the Python code.  The score
ledger is modelled as an append-only list of `GameScore` records, with
`created_at` timestamps given by the ledger length at insertion time
(timestamps are strictly increasing, as `auto_now_add` guarantees).
Randomness (`random.choice`) is modelled by an explicit `seed` that
selects an element of the candidate list by index modulo its length.
-/

namespace Games

/-- Cell states of the tic-tac-toe board, per the spec's Board data
model: empty, player marker X, computer marker O. -/
inductive Cell where
  | empty
  | X
  | O
deriving DecidableEq, Repr, Fintype

/-- A tic-tac-toe board: ordered sequence of cell states. -/
abbrev Board := List Cell

/-- Cell lookup `board[i]`, total with default empty. -/
def cellAt (b : Board) (i : Nat) : Cell := b.getD i Cell.empty

/-- The 8 fixed winning triples from `check_winner`: 3 rows, 3
columns, 2 diagonals, in source order. -/
def winning_combos : List (Nat × Nat × Nat) :=
  [(0, 1, 2), (3, 4, 5), (6, 7, 8),
   (0, 3, 6), (1, 4, 7), (2, 5, 8),
   (0, 4, 8), (2, 4, 6)]

/-- Loop condition of `check_winner`:
`board[combo[0]] == board[combo[1]] == board[combo[2]] != ''`. -/
def comboCond (b : Board) (t : Nat × Nat × Nat) : Prop :=
  cellAt b t.1 = cellAt b t.2.1 ∧ cellAt b t.2.1 = cellAt b t.2.2 ∧
    cellAt b t.2.2 ≠ Cell.empty

instance (b : Board) (t : Nat × Nat × Nat) : Decidable (comboCond b t) := by
  unfold comboCond; infer_instance

/-- `check_winner(board)` from `tic-tac-toe.py`: scan the winning
combos in order; on the first combo whose three cells are equal and
non-empty return that cell's marker, otherwise return nothing. -/
def check_winner (b : Board) : Option Cell :=
  match winning_combos.find? (fun t => decide (comboCond b t)) with
  | some t => some (cellAt b t.1)
  | none => none

/-- The view's draw test `'' not in board`. -/
def boardFull (b : Board) : Bool := !(b.contains Cell.empty)

/-- Outcome of evaluating a board: a winner, a draw, or game still in
progress. -/
inductive Outcome where
  | winner (m : Cell)
  | draw
  | ongoing
deriving DecidableEq, Repr

/-- Board evaluation as composed by the `tic_tac_toe_move` view:
first `check_winner`, then the `'' not in board` draw test; otherwise
the game continues. -/
def evaluateBoard (b : Board) : Outcome :=
  match check_winner b with
  | some m => Outcome.winner m
  | none => if boardFull b then Outcome.draw else Outcome.ongoing

/-- One probing loop of `get_computer_move`: for each index in turn,
if the cell is empty, place `mark` there, test `check_winner`, and put
the cell back to empty; return the first index whose placement wins.
The board is threaded explicitly to model the in-place mutation and
restoration. -/
def probeMoves (mark : Cell) (b : Board) : List Nat → Option Nat × Board
  | [] => (none, b)
  | i :: rest =>
    if cellAt b i = Cell.empty then
      let b1 := b.set i mark
      if check_winner b1 = some mark then (some i, b1.set i Cell.empty)
      else probeMoves mark (b1.set i Cell.empty) rest
    else probeMoves mark b rest

/-- `get_computer_move(board)` from `tic-tac-toe.py`: try to win, try
to block the player, take the center, take a corner, else any open
cell; `random.choice` is modelled by indexing with `seed` modulo the
candidate list length.  Returns the chosen index (or none on a full
board) together with the board after all probing. -/
def get_computer_move (b : Board) (seed : Nat) : Option Nat × Board :=
  let p1 := probeMoves Cell.O b (List.range 9)
  match p1.1 with
  | some i => (some i, p1.2)
  | none =>
    let p2 := probeMoves Cell.X p1.2 (List.range 9)
    match p2.1 with
    | some i => (some i, p2.2)
    | none =>
      let b2 := p2.2
      if cellAt b2 4 = Cell.empty then (some 4, b2)
      else
        let corners := [0, 2, 6, 8].filter fun i => decide (cellAt b2 i = Cell.empty)
        if corners ≠ [] then (some (corners.getD (seed % corners.length) 0), b2)
        else
          let available := (List.range b2.length).filter fun i => decide (cellAt b2 i = Cell.empty)
          if available ≠ [] then (some (available.getD (seed % available.length) 0), b2)
          else (none, b2)

/-- `determine_rps_winner(player, computer)` from
`rock_ paper_ scissors.py`, literally on choice tokens. -/
def determine_rps_winner (player computer : String) : String :=
  if player = computer then "tie"
  else if (player = "rock" ∧ computer = "scissors")
      ∨ (player = "paper" ∧ computer = "rock")
      ∨ (player = "scissors" ∧ computer = "paper") then "win"
  else "lose"

/-- Modelled from the spec: the cyclic dominance rule (rock beats
scissors, scissors beats paper, paper beats rock), for comparison with
`determine_rps_winner`. -/
abbrev beats (a b : String) : Prop :=
  (a = "rock" ∧ b = "scissors") ∨ (a = "scissors" ∧ b = "paper") ∨ (a = "paper" ∧ b = "rock")

/-- The keyword arguments accepted by the `GameScore` model from
`models.py`: its declared fields (including the two foreign keys), the
timestamps inherited from `TimestampedModel`, the implicit primary key
`id`, and the foreign-key attribute names `player_id` and `game_id`
that Django also accepts.  Any other keyword argument passed to
`Model.__init__` (hence to `objects.create`) raises `TypeError`. -/
def gameScoreModelFields : List String :=
  ["id", "player", "player_id", "game", "game_id", "score",
   "max_possible_score", "attempts", "duration", "started_at", "ended_at",
   "session_id", "game_data", "difficulty_played", "settings", "accuracy",
   "reaction_time", "is_completed", "is_personal_best",
   "created_at", "updated_at"]

/-- The keyword arguments the `rock_paper_scissors` view passes to
`GameScore.objects.create` on a player win. -/
def rps_create_kwargs : List String :=
  ["player_name", "game_type", "score", "attempts"]

/-- One POST round of the `rock_paper_scissors` view: increment the
games-played counter, determine the result, and on a player win call
`GameScore.objects.create` with `rps_create_kwargs`.  Django rejects
any keyword argument that is not a `GameScore` model field by raising
`TypeError`, which aborts the request before the record is written and
before the session counters are stored; the model reports the first
offending keyword as the error.  Otherwise the round completes with
the score of the record created this round (10 on a win, none on a tie
or loss) and the updated counters. -/
def rock_paper_scissors_round (pc cc : String) (games_played wins : Nat) :
    Except String (Option Int × Nat × Nat) :=
  let gp := games_played + 1
  let result := determine_rps_winner pc cc
  if result = "win" then
    match rps_create_kwargs.find? (fun k => !(gameScoreModelFields.contains k)) with
    | some k => Except.error k
    | none => Except.ok (some 10, gp, wins + 1)
  else Except.ok (none, gp, wins)

/-- Hint returned to the guesser. -/
inductive GuessHint where
  | correct
  | tooLow
  | tooHigh
deriving DecidableEq, Repr

/-- Guess evaluation from the `number_guess` view: equality first,
otherwise `"Too low!"` when the guess is below the target, else
`"Too high!"`. -/
def evaluateGuess (guess target : Int) : GuessHint :=
  if guess = target then GuessHint.correct
  else if guess < target then GuessHint.tooLow
  else GuessHint.tooHigh

/-- A round of the number-guessing game: each request increments the
attempt counter and evaluates the guess; on the first correct guess
the round completes with score `max(100 - attempts, 10)`.  Returns the
hints issued, the final attempt count, and the recorded score if the
round completed. -/
def playRound (target : Int) : List Int → Nat → List GuessHint × Nat × Option Int
  | [], attempts => ([], attempts, none)
  | g :: gs, attempts =>
    match evaluateGuess g target with
    | GuessHint.correct =>
        ([GuessHint.correct], attempts + 1, some (max (100 - ((attempts + 1 : Nat) : Int)) 10))
    | h =>
        let rest := playRound target gs (attempts + 1)
        (h :: rest.1, rest.2.1, rest.2.2)

/-- A persisted score record (`GameScore` model), restricted to the
fields the claims are about.  `created_at` is the insertion timestamp. -/
structure GameScore where
  player : Nat
  game : Nat
  score : Int
  attempts : Nat
  is_personal_best : Bool
  created_at : Nat
deriving DecidableEq, Repr

/-- The score ledger: the `GameScore` table, append-only. -/
abbrev Ledger := List GameScore

/-- The demotion step of `GameScore.save`: the queryset
`filter(player, game, is_personal_best=True).update(is_personal_best=False)`
applied to one row. -/
def demote (p g : Nat) (r : GameScore) : GameScore :=
  if r.player = p ∧ r.game = g ∧ r.is_personal_best = true then
    { r with is_personal_best := false }
  else r

/-- `GameScore.save` from `models.py`, for a newly created record:
personal best unless some existing record of the same (player, game)
pair has a strictly greater score; in that case the new record is not
a best, otherwise every previously-best record of the pair is demoted
and the new record is saved with `is_personal_best = True`.  The new
record's `created_at` is the current ledger length (timestamps are
strictly increasing). -/
def GameScore.save (L : Ledger) (p g : Nat) (s : Int) (att : Nat) : Ledger :=
  let existing_best := L.any fun r => decide (r.player = p ∧ r.game = g ∧ s < r.score)
  let L1 := if existing_best then L else L.map (demote p g)
  L1 ++ [{ player := p, game := g, score := s, attempts := att,
           is_personal_best := !existing_best, created_at := L.length }]

/-- The player aggregate fields recomputed by `update_player_stats`. -/
structure PlayerStats where
  total_games : Nat
  total_score : Int
  highest_score : Int
deriving DecidableEq, Repr

/-- `GameScore.update_player_stats` from `models.py`: recompute the
player's aggregates from the full set of that player's records —
count, sum of scores, and max score (`or 0` when the aggregate is
empty or zero, which coincides with `getD 0` on these scores). -/
def update_player_stats (L : Ledger) (p : Nat) : PlayerStats :=
  let recs := L.filter fun r => decide (r.player = p)
  { total_games := recs.length
    total_score := (recs.map fun r => r.score).sum
    highest_score := ((recs.map fun r => r.score).max?).getD 0 }

/-- A sequence of `recordScore` calls (GameScore creations), each
saving a (player, game, score) triple, starting from an empty table. -/
def runScores (calls : List (Nat × Nat × Int)) : Ledger :=
  calls.foldl (fun L c => GameScore.save L c.1 c.2.1 c.2.2 1) []

/-- The round-completion path of the `number_guess` view: compute the
score, create the `GameScore` (whose save recomputes the player's
aggregates), and then hand-increment `player.total_games` and
`player.total_score` on top of the recomputed values, as the view
does after `GameScore.objects.create`. -/
def number_guess_complete (L : Ledger) (p g : Nat) (attempts : Nat) :
    Ledger × PlayerStats :=
  let score := max (100 - (attempts : Int)) 10
  let L2 := GameScore.save L p g score attempts
  let st := update_player_stats L2 p
  (L2, { st with total_games := st.total_games + 1,
                 total_score := st.total_score + score })

/-- The winning triple at position `k` of `winning_combos` is wholly
occupied by marker `m` (and `m` is not empty). -/
abbrev tripleAt (b : Board) (k : Fin 8) (m : Cell) : Prop :=
  cellAt b (winning_combos.getD k.1 (0, 0, 0)).1 = m ∧
  cellAt b (winning_combos.getD k.1 (0, 0, 0)).2.1 = m ∧
  cellAt b (winning_combos.getD k.1 (0, 0, 0)).2.2 = m ∧
  m ≠ Cell.empty

/-- No empty cell remains on a 9-cell board. -/
abbrev boardFullP (b : Board) : Prop := ∀ i : Fin 9, cellAt b i.1 ≠ Cell.empty

/-- Marker `m` occupies all three cells of the first matching winning
triple: some triple is wholly `m`, and every earlier triple is matched
by no marker at all. -/
abbrev firstTripleWin (b : Board) (m : Cell) : Prop :=
  ∃ k : Fin 8, tripleAt b k m ∧ ∀ j : Fin 8, j < k → ∀ m2 : Cell, ¬ tripleAt b j m2

/-! ### Board evaluation (claim C2) -/

theorem winning_combos_length : winning_combos.length = 8 := rfl

theorem comboCond_iff_tripleAt (b : Board) (k : Fin 8) :
    comboCond b (winning_combos.getD k.1 (0, 0, 0)) ↔ ∃ m, tripleAt b k m := by
  constructor
  · rintro ⟨e1, e2, ne⟩
    exact ⟨cellAt b (winning_combos.getD k.1 (0, 0, 0)).1, rfl, e1.symm,
      (e1.trans e2).symm, fun h => ne ((e1.trans e2).symm.trans h)⟩
  · rintro ⟨m, h1, h2, h3, h4⟩
    exact ⟨h1.trans h2.symm, h2.trans h3.symm, fun h => h4 (h3.symm.trans h ▸ rfl)⟩

theorem check_winner_eq_some_iff (b : Board) (m : Cell) :
    check_winner b = some m ↔ firstTripleWin b m := by
  constructor
  · intro h
    rcases hf : winning_combos.find? (fun t => decide (comboCond b t)) with _ | t
    · simp [check_winner, hf] at h
    · simp only [check_winner, hf, Option.some.injEq] at h
      rw [List.find?_eq_some_iff_getElem] at hf
      obtain ⟨hpt, i, hi, hti, hprev⟩ := hf
      have hi8 : i < 8 := by simpa [winning_combos_length] using hi
      have hgd : winning_combos.getD i (0, 0, 0) = t := by
        rw [List.getD_eq_getElem _ _ hi, hti]
      have hcc : comboCond b (winning_combos.getD i (0, 0, 0)) := by
        rw [hgd]; exact of_decide_eq_true hpt
      refine ⟨⟨i, hi8⟩, ?_, ?_⟩
      · obtain ⟨e1, e2, ne⟩ := hcc
        have hm : cellAt b (winning_combos.getD i (0, 0, 0)).1 = m := by rw [hgd]; exact h
        exact ⟨hm, e1.symm.trans hm, (e1.trans e2).symm.trans hm,
          fun he => ne (((e1.trans e2).symm.trans hm).trans he ▸ rfl)⟩
      · intro j hj m2 htr
        have hjlt : (j : Nat) < i := hj
        have hjlen : (j : Nat) < winning_combos.length := by
          rw [winning_combos_length]; exact j.2
        have hnp := hprev j.1 hjlt
        have hcj : comboCond b (winning_combos.getD j.1 (0, 0, 0)) :=
          (comboCond_iff_tripleAt b j).mpr ⟨m2, htr⟩
        rw [List.getD_eq_getElem _ _ hjlen] at hcj
        simp [hcj] at hnp
  · rintro ⟨k, htr, hmin⟩
    have hklen : k.1 < winning_combos.length := by rw [winning_combos_length]; exact k.2
    have hfind : winning_combos.find? (fun t => decide (comboCond b t))
        = some (winning_combos.getD k.1 (0, 0, 0)) := by
      rw [List.find?_eq_some_iff_getElem]
      refine ⟨decide_eq_true ((comboCond_iff_tripleAt b k).mpr ⟨m, htr⟩), k.1, hklen,
        (List.getD_eq_getElem _ _ hklen).symm, ?_⟩
      intro j hj
      have hj8 : j < 8 := lt_trans hj k.2
      have hnc : ¬ comboCond b (winning_combos.getD j (0, 0, 0)) := by
        intro hcc
        obtain ⟨m2, htr2⟩ := (comboCond_iff_tripleAt b ⟨j, hj8⟩).mp hcc
        exact hmin ⟨j, hj8⟩ (by simpa [Fin.lt_def] using hj) m2 htr2
      rw [List.getD_eq_getElem _ _ (by rw [winning_combos_length]; exact hj8)] at hnc
      simp [hnc]
    simp only [check_winner, hfind, Option.some.injEq]
    exact htr.1

theorem check_winner_none_of_no_triple (b : Board)
    (h : ∀ k : Fin 8, ∀ m : Cell, ¬ tripleAt b k m) : check_winner b = none := by
  rcases hf : winning_combos.find? (fun t => decide (comboCond b t)) with _ | t
  · simp [check_winner, hf]
  · exfalso
    rw [List.find?_eq_some_iff_getElem] at hf
    obtain ⟨hpb, i, hi, hit, _⟩ := hf
    have hpt : comboCond b t := of_decide_eq_true (by simpa using hpb)
    have hi8 : i < 8 := by simpa [winning_combos_length] using hi
    have hcc : comboCond b (winning_combos.getD i (0, 0, 0)) := by
      rw [List.getD_eq_getElem _ _ hi, hit]; exact hpt
    obtain ⟨m2, htr⟩ := (comboCond_iff_tripleAt b ⟨i, hi8⟩).mp hcc
    exact h ⟨i, hi8⟩ m2 htr

theorem evaluateBoard_winner_iff (b : Board) (m : Cell) :
    evaluateBoard b = Outcome.winner m ↔ check_winner b = some m := by
  rcases hcw : check_winner b with _ | m2
  · cases hb : boardFull b <;> simp [evaluateBoard, hcw, hb]
  · simp [evaluateBoard, hcw]

theorem boardFull_iff (b : Board) (h9 : b.length = 9) :
    boardFull b = true ↔ boardFullP b := by
  constructor
  · intro h i heq
    have hne : Cell.empty ∉ b := by
      intro hmem
      have hc : b.contains Cell.empty = true := List.elem_iff.mpr hmem
      rw [boardFull, hc] at h
      simp at h
    have hlt : i.1 < b.length := by rw [h9]; exact i.2
    have : b.getD i.1 Cell.empty ∈ b := by
      rw [List.getD_eq_getElem _ _ hlt]; exact List.getElem_mem hlt
    rw [cellAt] at heq
    rw [heq] at this
    exact hne this
  · intro h
    rw [boardFull]
    cases hc : b.contains Cell.empty
    · rfl
    · exfalso
      obtain ⟨i, hi, hieq⟩ := List.mem_iff_getElem.mp (List.elem_iff.mp hc)
      have hi9 : i < 9 := by rw [← h9]; exact hi
      apply h ⟨i, hi9⟩
      rw [cellAt, List.getD_eq_getElem _ _ hi]
      exact hieq

/-- C2: on every 9-cell board, the evaluator reports winner `m` exactly
when `m` occupies all three cells of the first matching triple among
the 8 fixed winning triples (3 rows, 3 columns, 2 diagonals); and when
no triple matches, it reports a draw on a full board and an ongoing
game on a non-full board. -/
theorem evaluateBoard_correct (b : Board) (h9 : b.length = 9) :
    (∀ m : Cell, evaluateBoard b = Outcome.winner m ↔ firstTripleWin b m)
  ∧ ((∀ k : Fin 8, ∀ m : Cell, ¬ tripleAt b k m) →
      ((boardFullP b → evaluateBoard b = Outcome.draw)
        ∧ (¬ boardFullP b → evaluateBoard b = Outcome.ongoing))) := by
  constructor
  · intro m
    rw [evaluateBoard_winner_iff, check_winner_eq_some_iff]
  · intro hno
    have hcw := check_winner_none_of_no_triple b hno
    constructor
    · intro hfull
      have hb : boardFull b = true := (boardFull_iff b h9).mpr hfull
      simp [evaluateBoard, hcw, hb]
    · intro hnf
      have hb : boardFull b = false := by
        cases hb : boardFull b
        · rfl
        · exact absurd ((boardFull_iff b h9).mp hb) hnf
      simp [evaluateBoard, hcw, hb]

/-- Witness for C2 at the spec's scenario: the board
`['X','X','','','','','','','']` after the player completes position 2. -/
theorem evaluateBoard_correct_witness :
    evaluateBoard [Cell.X, Cell.X, Cell.X, Cell.empty, Cell.empty, Cell.empty,
      Cell.empty, Cell.empty, Cell.empty] = Outcome.winner Cell.X :=
  ((evaluateBoard_correct [Cell.X, Cell.X, Cell.X, Cell.empty, Cell.empty, Cell.empty,
      Cell.empty, Cell.empty, Cell.empty] (by decide)).1 Cell.X).mpr (by decide)

/-! ### Opponent policy (claims C4, C5, C9) -/

theorem set_getD_eq {α : Type} (l : List α) (i : Nat) (d : α)
    (h : l.getD i d = d) : l.set i d = l := by
  induction l generalizing i with
  | nil => rfl
  | cons a t ih =>
    cases i with
    | zero =>
      rw [List.getD_cons_zero] at h
      rw [List.set_cons_zero, h]
    | succ n =>
      rw [List.getD_cons_succ] at h
      rw [List.set_cons_succ, ih n h]

theorem set_mark_unset (b : Board) (i : Nat) (mark : Cell)
    (h : cellAt b i = Cell.empty) :
    (b.set i mark).set i Cell.empty = b := by
  rw [List.set_set]
  exact set_getD_eq b i Cell.empty h

theorem probeMoves_snd (mark : Cell) (b : Board) (l : List Nat) :
    (probeMoves mark b l).2 = b := by
  induction l generalizing b with
  | nil => rfl
  | cons i rest ih =>
    by_cases hc : cellAt b i = Cell.empty
    · by_cases hw : check_winner (b.set i mark) = some mark
      · simp only [probeMoves, if_pos hc, if_pos hw]
        exact set_mark_unset b i mark hc
      · simp only [probeMoves, if_pos hc, if_neg hw]
        rw [set_mark_unset b i mark hc]
        exact ih b
    · simp only [probeMoves, if_neg hc]
      exact ih b

theorem probeMoves_fst_some (mark : Cell) (b : Board) (l : List Nat) (i : Nat)
    (h : (probeMoves mark b l).1 = some i) :
    i ∈ l ∧ cellAt b i = Cell.empty ∧ check_winner (b.set i mark) = some mark := by
  induction l generalizing b with
  | nil => simp [probeMoves] at h
  | cons j rest ih =>
    by_cases hc : cellAt b j = Cell.empty
    · by_cases hw : check_winner (b.set j mark) = some mark
      · simp only [probeMoves, if_pos hc, if_pos hw, Option.some.injEq] at h
        subst h
        exact ⟨List.mem_cons_self j rest, hc, hw⟩
      · simp only [probeMoves, if_pos hc, if_neg hw] at h
        rw [set_mark_unset b j mark hc] at h
        obtain ⟨him, hcell, hwin⟩ := ih b h
        exact ⟨List.mem_cons_of_mem j him, hcell, hwin⟩
    · simp only [probeMoves, if_neg hc] at h
      obtain ⟨him, hcell, hwin⟩ := ih b h
      exact ⟨List.mem_cons_of_mem j him, hcell, hwin⟩

theorem probeMoves_fst_none (mark : Cell) (b : Board) (l : List Nat)
    (h : (probeMoves mark b l).1 = none) :
    ∀ i ∈ l, ¬(cellAt b i = Cell.empty ∧ check_winner (b.set i mark) = some mark) := by
  induction l generalizing b with
  | nil => simp
  | cons j rest ih =>
    by_cases hc : cellAt b j = Cell.empty
    · by_cases hw : check_winner (b.set j mark) = some mark
      · simp only [probeMoves, if_pos hc, if_pos hw] at h
        exact absurd h (by simp)
      · simp only [probeMoves, if_pos hc, if_neg hw] at h
        rw [set_mark_unset b j mark hc] at h
        intro i hi
        rcases List.mem_cons.mp hi with rfl | hi2
        · exact fun hcon => hw hcon.2
        · exact ih b h i hi2
    · simp only [probeMoves, if_neg hc] at h
      intro i hi
      rcases List.mem_cons.mp hi with rfl | hi2
      · exact fun hcon => hc hcon.1
      · exact ih b h i hi2

theorem probeMoves_finds (mark : Cell) (b : Board) (l : List Nat)
    (hex : ∃ i ∈ l, cellAt b i = Cell.empty ∧ check_winner (b.set i mark) = some mark) :
    ∃ j, (probeMoves mark b l).1 = some j ∧ cellAt b j = Cell.empty ∧
      check_winner (b.set j mark) = some mark := by
  rcases hp : (probeMoves mark b l).1 with _ | j
  · obtain ⟨i, hil, hc, hw⟩ := hex
    exact absurd ⟨hc, hw⟩ (probeMoves_fst_none mark b l hp i hil)
  · obtain ⟨_, hc, hw⟩ := probeMoves_fst_some mark b l j hp
    exact ⟨j, rfl, hc, hw⟩

/-- C9: `get_computer_move` restores every probed cell, so the board
it returns is exactly the board it was given: the probing loops leave
no trace of the temporary O and X placements. -/
theorem get_computer_move_preserves_board (b : Board) (seed : Nat)
    (_h9 : b.length = 9) : (get_computer_move b seed).2 = b := by
  simp only [get_computer_move, probeMoves_snd]
  rcases ho1 : (probeMoves Cell.O b (List.range 9)).1 with _ | i
  · simp only [ho1]
    rcases ho2 : (probeMoves Cell.X b (List.range 9)).1 with _ | j
    · simp only [ho2]
      split
      · rfl
      · split
        · rfl
        · split
          · rfl
          · rfl
    · simp only [ho2]
  · simp only [ho1]

/-- Witness for C9 on a board where the probing loops fire: the board
comes back unchanged. -/
theorem get_computer_move_preserves_board_witness :
    (get_computer_move [Cell.X, Cell.X, Cell.empty, Cell.empty, Cell.O, Cell.empty,
        Cell.empty, Cell.empty, Cell.empty] 5).2
      = [Cell.X, Cell.X, Cell.empty, Cell.empty, Cell.O, Cell.empty,
         Cell.empty, Cell.empty, Cell.empty] :=
  get_computer_move_preserves_board [Cell.X, Cell.X, Cell.empty, Cell.empty, Cell.O,
    Cell.empty, Cell.empty, Cell.empty, Cell.empty] 5 (by decide)

theorem getD_mod_mem (l : List Nat) (seed : Nat) (h : l ≠ []) :
    l.getD (seed % l.length) 0 ∈ l := by
  have hlen : 0 < l.length := List.length_pos.mpr h
  have hlt : seed % l.length < l.length := Nat.mod_lt _ hlen
  rw [List.getD_eq_getElem _ _ hlt]
  exact List.getElem_mem hlt

theorem corners_filter_mem (b : Board) (i : Nat)
    (hi : i ∈ [0, 2, 6, 8].filter fun j => decide (cellAt b j = Cell.empty)) :
    i < 9 ∧ cellAt b i = Cell.empty := by
  obtain ⟨h1, h2⟩ := List.mem_filter.mp hi
  refine ⟨?_, of_decide_eq_true h2⟩
  simp only [List.mem_cons, List.not_mem_nil, or_false] at h1
  rcases h1 with rfl | rfl | rfl | rfl <;> omega

theorem available_filter_mem (b : Board) (h9 : b.length = 9) (i : Nat)
    (hi : i ∈ (List.range b.length).filter fun j => decide (cellAt b j = Cell.empty)) :
    i < 9 ∧ cellAt b i = Cell.empty := by
  obtain ⟨h1, h2⟩ := List.mem_filter.mp hi
  have h1r := List.mem_range.mp h1
  rw [h9] at h1r
  exact ⟨h1r, of_decide_eq_true h2⟩

theorem get_computer_move_spec (b : Board) (seed : Nat) (h9 : b.length = 9) :
    (∃ j, (get_computer_move b seed).1 = some j ∧ j < 9 ∧ cellAt b j = Cell.empty)
  ∨ ((get_computer_move b seed).1 = none ∧ ∀ i, i < 9 → cellAt b i ≠ Cell.empty) := by
  simp only [get_computer_move, probeMoves_snd]
  rcases ho1 : (probeMoves Cell.O b (List.range 9)).1 with _ | i1
  · simp only
    rcases ho2 : (probeMoves Cell.X b (List.range 9)).1 with _ | i2
    · simp only
      by_cases h4 : cellAt b 4 = Cell.empty
      · rw [if_pos h4]
        exact Or.inl ⟨4, rfl, by omega, h4⟩
      · rw [if_neg h4]
        by_cases hc : ([0, 2, 6, 8].filter fun j => decide (cellAt b j = Cell.empty)) ≠ []
        · rw [if_pos hc]
          exact Or.inl ⟨_, rfl, corners_filter_mem b _ (getD_mod_mem _ seed hc)⟩
        · rw [if_neg hc]
          by_cases ha : ((List.range b.length).filter
              fun j => decide (cellAt b j = Cell.empty)) ≠ []
          · rw [if_pos ha]
            exact Or.inl ⟨_, rfl, available_filter_mem b h9 _ (getD_mod_mem _ seed ha)⟩
          · rw [if_neg ha]
            refine Or.inr ⟨rfl, ?_⟩
            intro i hi hempty
            have hnil : ((List.range b.length).filter
                fun j => decide (cellAt b j = Cell.empty)) = [] := not_not.mp ha
            have hmem : i ∈ (List.range b.length).filter
                fun j => decide (cellAt b j = Cell.empty) :=
              List.mem_filter.mpr ⟨List.mem_range.mpr (by omega), decide_eq_true hempty⟩
            rw [hnil] at hmem
            exact List.not_mem_nil i hmem
    · obtain ⟨hmem, hcell, _⟩ := probeMoves_fst_some Cell.X b (List.range 9) i2 ho2
      exact Or.inl ⟨i2, rfl, List.mem_range.mp hmem, hcell⟩
  · obtain ⟨hmem, hcell, _⟩ := probeMoves_fst_some Cell.O b (List.range 9) i1 ho1
    exact Or.inl ⟨i1, rfl, List.mem_range.mp hmem, hcell⟩

/-- C4: on every 9-cell board, `get_computer_move` never selects an
occupied cell, and it returns no move exactly when the board has no
empty cell. -/
theorem get_computer_move_safe (b : Board) (seed : Nat) (h9 : b.length = 9) :
    ((get_computer_move b seed).1 = none ↔ ∀ i, i < 9 → cellAt b i ≠ Cell.empty)
  ∧ (∀ i, (get_computer_move b seed).1 = some i → cellAt b i = Cell.empty) := by
  rcases get_computer_move_spec b seed h9 with ⟨j, hj, hj9, hjemp⟩ | ⟨hn, hfull⟩
  · constructor
    · constructor
      · intro h
        rw [h] at hj
        exact absurd hj (by simp)
      · intro hfull
        exact absurd hjemp (hfull j hj9)
    · intro i hi
      rw [hj] at hi
      obtain rfl : j = i := by simpa using hi
      exact hjemp
  · constructor
    · exact ⟨fun _ => hfull, fun _ => hn⟩
    · intro i hi
      rw [hn] at hi
      exact absurd hi (by simp)

/-- Witness for C4 on a full board and on a board with one empty cell. -/
theorem get_computer_move_safe_witness :
    (get_computer_move [Cell.X, Cell.O, Cell.X, Cell.O, Cell.X, Cell.O,
        Cell.O, Cell.X, Cell.O] 0).1 = none
  ∧ cellAt [Cell.X, Cell.O, Cell.X, Cell.O, Cell.X, Cell.O, Cell.O, Cell.X,
      Cell.empty] 8 = Cell.empty := by
  constructor
  · exact (get_computer_move_safe [Cell.X, Cell.O, Cell.X, Cell.O, Cell.X, Cell.O,
      Cell.O, Cell.X, Cell.O] 0 (by decide)).1.mpr (by decide)
  · exact (get_computer_move_safe [Cell.X, Cell.O, Cell.X, Cell.O, Cell.X, Cell.O,
      Cell.O, Cell.X, Cell.empty] 0 (by decide)).2 8 (by decide)

theorem gcm_stage1 (b : Board) (seed : Nat) (j : Nat)
    (hj : (probeMoves Cell.O b (List.range 9)).1 = some j) :
    (get_computer_move b seed).1 = some j := by
  simp only [get_computer_move, probeMoves_snd, hj]

theorem gcm_stage2 (b : Board) (seed : Nat) (j : Nat)
    (h1 : (probeMoves Cell.O b (List.range 9)).1 = none)
    (hj : (probeMoves Cell.X b (List.range 9)).1 = some j) :
    (get_computer_move b seed).1 = some j := by
  simp only [get_computer_move, probeMoves_snd, h1, hj]

/-- C5: on every board with an immediately winning cell for the
computer marker O, `get_computer_move` selects such a cell; and on
every board with no winning cell but with a cell whose occupation by
the player marker X would win for the player, it selects such a
blocking cell. -/
theorem get_computer_move_win_block (b : Board) (seed : Nat) (_h9 : b.length = 9) :
    ((∃ i, i < 9 ∧ cellAt b i = Cell.empty ∧ check_winner (b.set i Cell.O) = some Cell.O) →
      ∃ j, (get_computer_move b seed).1 = some j ∧ cellAt b j = Cell.empty ∧
        check_winner (b.set j Cell.O) = some Cell.O)
  ∧ ((∀ i, i < 9 → ¬(cellAt b i = Cell.empty ∧ check_winner (b.set i Cell.O) = some Cell.O)) →
     (∃ i, i < 9 ∧ cellAt b i = Cell.empty ∧ check_winner (b.set i Cell.X) = some Cell.X) →
      ∃ j, (get_computer_move b seed).1 = some j ∧ cellAt b j = Cell.empty ∧
        check_winner (b.set j Cell.X) = some Cell.X) := by
  constructor
  · rintro ⟨i, hi9, hc, hw⟩
    obtain ⟨j, hpj, hjc, hjw⟩ := probeMoves_finds Cell.O b (List.range 9)
      ⟨i, List.mem_range.mpr hi9, hc, hw⟩
    exact ⟨j, gcm_stage1 b seed j hpj, hjc, hjw⟩
  · rintro hnowin ⟨i, hi9, hc, hw⟩
    have h1 : (probeMoves Cell.O b (List.range 9)).1 = none := by
      rcases hp : (probeMoves Cell.O b (List.range 9)).1 with _ | j
      · rfl
      · obtain ⟨hjm, hjc, hjw⟩ := probeMoves_fst_some Cell.O b (List.range 9) j hp
        exact absurd ⟨hjc, hjw⟩ (hnowin j (List.mem_range.mp hjm))
    obtain ⟨j, hpj, hjc, hjw⟩ := probeMoves_finds Cell.X b (List.range 9)
      ⟨i, List.mem_range.mpr hi9, hc, hw⟩
    exact ⟨j, gcm_stage2 b seed j h1 hpj, hjc, hjw⟩

/-- Witness for C5: a winning move at cell 2 for O, and a blocking
move at cell 2 against X. -/
theorem get_computer_move_win_block_witness :
    (∃ j, (get_computer_move [Cell.O, Cell.O, Cell.empty, Cell.X, Cell.X, Cell.empty,
        Cell.empty, Cell.empty, Cell.empty] 0).1 = some j ∧
      cellAt [Cell.O, Cell.O, Cell.empty, Cell.X, Cell.X, Cell.empty,
        Cell.empty, Cell.empty, Cell.empty] j = Cell.empty ∧
      check_winner ([Cell.O, Cell.O, Cell.empty, Cell.X, Cell.X, Cell.empty,
        Cell.empty, Cell.empty, Cell.empty].set j Cell.O) = some Cell.O)
  ∧ (∃ j, (get_computer_move [Cell.X, Cell.X, Cell.empty, Cell.empty, Cell.empty,
        Cell.empty, Cell.empty, Cell.empty, Cell.empty] 0).1 = some j ∧
      cellAt [Cell.X, Cell.X, Cell.empty, Cell.empty, Cell.empty, Cell.empty,
        Cell.empty, Cell.empty, Cell.empty] j = Cell.empty ∧
      check_winner ([Cell.X, Cell.X, Cell.empty, Cell.empty, Cell.empty, Cell.empty,
        Cell.empty, Cell.empty, Cell.empty].set j Cell.X) = some Cell.X) := by
  constructor
  · exact (get_computer_move_win_block [Cell.O, Cell.O, Cell.empty, Cell.X, Cell.X,
      Cell.empty, Cell.empty, Cell.empty, Cell.empty] 0 (by decide)).1
      ⟨2, by decide, by decide, by decide⟩
  · exact (get_computer_move_win_block [Cell.X, Cell.X, Cell.empty, Cell.empty,
      Cell.empty, Cell.empty, Cell.empty, Cell.empty, Cell.empty] 0 (by decide)).2
      (by decide) ⟨2, by decide, by decide, by decide⟩

/-! ### Rock-paper-scissors and number guessing (claims C6, C7, C8, C10) -/

/-- C6: for valid choice tokens, `determine_rps_winner` returns tie
exactly on equal choices and otherwise follows the cyclic dominance
rule from the player's perspective; in particular rock versus scissors
is a win. -/
theorem determine_rps_winner_correct (p c : String)
    (hp : p ∈ ["rock", "paper", "scissors"]) (hc : c ∈ ["rock", "paper", "scissors"]) :
    (determine_rps_winner p c = "tie" ↔ p = c)
  ∧ (determine_rps_winner p c = "win" ↔ beats p c)
  ∧ (determine_rps_winner p c = "lose" ↔ beats c p)
  ∧ determine_rps_winner "rock" "scissors" = "win" := by
  simp only [List.mem_cons, List.not_mem_nil, or_false] at hp hc
  rcases hp with rfl | rfl | rfl <;> rcases hc with rfl | rfl | rfl <;>
    refine ⟨?_, ?_, ?_, by decide⟩ <;> decide

/-- Witness for C6 at the spec's scenario: player rock versus computer
scissors is a win. -/
theorem determine_rps_winner_correct_witness :
    determine_rps_winner "rock" "scissors" = "win" :=
  (determine_rps_winner_correct "rock" "scissors" (by decide) (by decide)).2.2.2

theorem evaluateGuess_cases (g t : Int) :
    (evaluateGuess g t = GuessHint.correct ↔ g = t)
  ∧ (evaluateGuess g t = GuessHint.tooLow ↔ g < t)
  ∧ (evaluateGuess g t = GuessHint.tooHigh ↔ t < g) := by
  unfold evaluateGuess
  split_ifs with h1 h2
  · subst h1
    exact ⟨by simp, by simp, by simp⟩
  · exact ⟨by simpa using h1, by simpa using h2, by simp; omega⟩
  · exact ⟨by simpa using h1, by simpa using h2, by simp; omega⟩

theorem playRound_score (t : Int) (gs : List Int) :
    ∀ (a : Nat) (hl : List GuessHint) (n : Nat) (s : Int),
      playRound t gs a = (hl, n, some s) → s = max (100 - (n : Int)) 10 := by
  induction gs with
  | nil =>
    intro a hl n s h
    simp [playRound] at h
  | cons g rest ih =>
    intro a hl n s h
    rcases hev : evaluateGuess g t with _ | _ | _ <;>
      simp only [playRound, hev] at h
    · simp only [Prod.mk.injEq] at h
      obtain ⟨-, hn, hs⟩ := h
      subst hn
      exact (show max (100 - ((a + 1 : Nat) : Int)) 10 = s by simpa using hs).symm
    · rcases hpr : playRound t rest (a + 1) with ⟨hl2, n2, s2⟩
      simp only [hpr, Prod.mk.injEq] at h
      obtain ⟨-, hn, hs⟩ := h
      exact ih (a + 1) hl2 n s (by rw [hpr, hn, hs])
    · rcases hpr : playRound t rest (a + 1) with ⟨hl2, n2, s2⟩
      simp only [hpr, Prod.mk.injEq] at h
      obtain ⟨-, hn, hs⟩ := h
      exact ih (a + 1) hl2 n s (by rw [hpr, hn, hs])

/-- C7: guess evaluation is exact comparison (correct on equality, too
low below, too high above); a round completing after `n` attempts
records `max(100 - n, 10)`; and the spec's scenario target 50 with
guesses 10, 90, 50 yields too-low, too-high, correct, 3 attempts and
score 97. -/
theorem evaluateGuess_correct :
    (∀ g t : Int, (evaluateGuess g t = GuessHint.correct ↔ g = t)
      ∧ (evaluateGuess g t = GuessHint.tooLow ↔ g < t)
      ∧ (evaluateGuess g t = GuessHint.tooHigh ↔ t < g))
  ∧ (∀ (t : Int) (gs : List Int) (a : Nat) (hl : List GuessHint) (n : Nat) (s : Int),
      playRound t gs a = (hl, n, some s) → s = max (100 - (n : Int)) 10)
  ∧ playRound 50 [10, 90, 50] 0
      = ([GuessHint.tooLow, GuessHint.tooHigh, GuessHint.correct], 3, some 97) :=
  ⟨evaluateGuess_cases, fun t gs a hl n s h => playRound_score t gs a hl n s h, by decide⟩

/-- Witness for C7: the scenario round completes with score 97 after 3
attempts. -/
theorem evaluateGuess_correct_witness :
    (97 : Int) = max (100 - ((3 : Nat) : Int)) 10 :=
  evaluateGuess_correct.2.1 50 [10, 90, 50] 0
    [GuessHint.tooLow, GuessHint.tooHigh, GuessHint.correct] 3 97 (by decide)

/-- C8 counterexample: malformed inputs are not rejected before
evaluation.  The unknown choice token banana is scored as an ordinary
loss by `determine_rps_winner`, and the out-of-range guess 500 is
answered with an ordinary too-high hint by the guess evaluation; no
InvalidInput rejection exists in the code. -/
theorem no_input_validation_counterexample :
    determine_rps_winner "banana" "rock" = "lose"
  ∧ evaluateGuess 500 50 = GuessHint.tooHigh := by
  constructor
  · rfl
  · decide

/-- C8 amended: the code performs no input validation.  An unknown
choice token is evaluated by the same comparison rules (never a win; a
tie only against an identical token, otherwise a loss), and an
out-of-range guess is evaluated by the same ordinary comparison that
serves in-range guesses. -/
theorem malformed_input_evaluated (p c : String) (g t : Int)
    (hp : p ∉ ["rock", "paper", "scissors"]) (_hrange : g < 1 ∨ 100 < g) :
    (determine_rps_winner p c ≠ "win"
      ∧ (determine_rps_winner p c = "tie" ↔ p = c)
      ∧ (p ≠ c → determine_rps_winner p c = "lose"))
  ∧ ((evaluateGuess g t = GuessHint.correct ↔ g = t)
      ∧ (evaluateGuess g t = GuessHint.tooLow ↔ g < t)
      ∧ (evaluateGuess g t = GuessHint.tooHigh ↔ t < g)) := by
  refine ⟨?_, evaluateGuess_cases g t⟩
  unfold determine_rps_winner
  split_ifs with h1 h2
  · exact ⟨by decide, ⟨fun _ => h1, fun _ => rfl⟩, fun hne => absurd h1 hne⟩
  · rcases h2 with ⟨hpr, _⟩ | ⟨hpr, _⟩ | ⟨hpr, _⟩ <;>
      exact absurd (by simp [hpr]) hp
  · exact ⟨by decide, ⟨fun hh => absurd hh (by decide), fun hh => absurd hh h1⟩,
      fun _ => rfl⟩

/-- Witness for C8 amended at the counterexample inputs. -/
theorem malformed_input_evaluated_witness :
    (determine_rps_winner "banana" "rock" ≠ "win"
      ∧ (determine_rps_winner "banana" "rock" = "tie" ↔ ("banana" : String) = "rock")
      ∧ (("banana" : String) ≠ "rock" → determine_rps_winner "banana" "rock" = "lose"))
  ∧ ((evaluateGuess 500 50 = GuessHint.correct ↔ (500 : Int) = 50)
      ∧ (evaluateGuess 500 50 = GuessHint.tooLow ↔ (500 : Int) < 50)
      ∧ (evaluateGuess 500 50 = GuessHint.tooHigh ↔ (50 : Int) < 500)) :=
  malformed_input_evaluated "banana" "rock" 500 50 (by decide) (by decide)

/-- C10 evaluated at the failing input: a winning round (player rock
versus computer scissors) takes the create branch, but the keyword
argument `player_name` passed to `GameScore.objects.create` is not a
`GameScore` model field, so the round aborts with a `TypeError` naming
`player_name` and no score record is created; a round the player does
not win completes normally with no record created. -/
theorem rps_win_round_raises :
    determine_rps_winner "rock" "scissors" = "win"
  ∧ "player_name" ∈ rps_create_kwargs
  ∧ "player_name" ∉ gameScoreModelFields
  ∧ rock_paper_scissors_round "rock" "scissors" 0 0 = Except.error "player_name"
  ∧ rock_paper_scissors_round "rock" "paper" 0 0 = Except.ok (none, 1, 0) :=
  ⟨rfl, by decide, by decide, rfl, rfl⟩

/-! ### Score ledger: personal bests and aggregates (claims C1, C3) -/

@[simp] theorem demote_player (p g : Nat) (r : GameScore) :
    (demote p g r).player = r.player := by
  unfold demote; split <;> rfl

@[simp] theorem demote_game (p g : Nat) (r : GameScore) :
    (demote p g r).game = r.game := by
  unfold demote; split <;> rfl

@[simp] theorem demote_score (p g : Nat) (r : GameScore) :
    (demote p g r).score = r.score := by
  unfold demote; split <;> rfl

@[simp] theorem demote_created_at (p g : Nat) (r : GameScore) :
    (demote p g r).created_at = r.created_at := by
  unfold demote; split <;> rfl

theorem demote_best_true (p g : Nat) (r : GameScore) :
    (demote p g r).is_personal_best = true
      ↔ (r.is_personal_best = true ∧ ¬(r.player = p ∧ r.game = g)) := by
  unfold demote
  split
  · rename_i hcond
    simp only [Bool.false_eq_true, false_iff]
    intro ⟨hb, hnp⟩
    exact hnp ⟨hcond.1, hcond.2.1⟩
  · rename_i hcond
    constructor
    · intro hb
      exact ⟨hb, fun ⟨hp, hg⟩ => hcond ⟨hp, hg, hb⟩⟩
    · intro ⟨hb, _⟩
      exact hb

theorem demote_eq_self_of (p g : Nat) (r : GameScore)
    (h : ¬(r.player = p ∧ r.game = g)) : demote p g r = r := by
  unfold demote
  split
  · rename_i hcond
    exact absurd ⟨hcond.1, hcond.2.1⟩ h
  · rfl

/-- The ledger invariant maintained by `GameScore.save`: timestamps
are bounded by the table size and identify records, every
personal-best record dominates all records of its (player, game) pair
(strictly greater score, or equal score and no smaller timestamp), and
every pair with a record has a personal best. -/
structure LedgerInv (L : Ledger) : Prop where
  tsBound : ∀ r ∈ L, r.created_at < L.length
  tsInj : ∀ r ∈ L, ∀ t ∈ L, r.created_at = t.created_at → r = t
  bestMax : ∀ r ∈ L, r.is_personal_best = true →
    ∀ t ∈ L, t.player = r.player → t.game = r.game →
      t.score ≤ r.score ∧ (t.score = r.score → t.created_at ≤ r.created_at)
  bestExists : ∀ p g : Nat, (∃ r ∈ L, r.player = p ∧ r.game = g) →
    ∃ r ∈ L, r.player = p ∧ r.game = g ∧ r.is_personal_best = true

theorem ledgerInv_nil : LedgerInv [] := by
  constructor <;> simp

theorem ledgerInv_save (L : Ledger) (p g : Nat) (s : Int) (att : Nat)
    (h : LedgerInv L) : LedgerInv (GameScore.save L p g s att) := by
  cases hany : (L.any fun r => decide (r.player = p ∧ r.game = g ∧ s < r.score)) with
  | true =>
    -- some existing record strictly beats the new score:
    -- no demotion, the new record is saved as a non-best
    have hsave : GameScore.save L p g s att
        = L ++ [{ player := p, game := g, score := s, attempts := att,
                  is_personal_best := false, created_at := L.length }] := by
      unfold GameScore.save
      rw [hany]
      simp
    obtain ⟨r0, hr0L, hr0⟩ : ∃ r ∈ L, r.player = p ∧ r.game = g ∧ s < r.score := by
      simpa only [List.any_eq_true, decide_eq_true_eq] using hany
    rw [hsave]
    constructor
    · intro r hr
      simp only [List.length_append, List.length_cons, List.length_nil]
      rcases List.mem_append.mp hr with hrL | hrN
      · have := h.tsBound r hrL
        omega
      · simp only [List.mem_singleton] at hrN
        subst hrN
        simp
    · intro r hr t ht heq
      rcases List.mem_append.mp hr with hrL | hrN <;>
        rcases List.mem_append.mp ht with htL | htN
      · exact h.tsInj r hrL t htL heq
      · simp only [List.mem_singleton] at htN
        subst htN
        have := h.tsBound r hrL
        simp at heq
        omega
      · simp only [List.mem_singleton] at hrN
        subst hrN
        have := h.tsBound t htL
        simp at heq
        omega
      · simp only [List.mem_singleton] at hrN htN
        rw [hrN, htN]
    · intro r hr hbest t ht hp hg
      rcases List.mem_append.mp hr with hrL | hrN
      · rcases List.mem_append.mp ht with htL | htN
        · exact h.bestMax r hrL hbest t htL hp hg
        · simp only [List.mem_singleton] at htN
          subst htN
          simp only at hp hg
          have hm := h.bestMax r hrL hbest r0 hr0L (hr0.1.trans hp) (hr0.2.1.trans hg)
          have hlt : s < r.score := lt_of_lt_of_le hr0.2.2 hm.1
          exact ⟨le_of_lt hlt, fun heq => absurd heq (ne_of_lt hlt)⟩
      · simp only [List.mem_singleton] at hrN
        subst hrN
        exact absurd hbest (by simp)
    · intro p2 g2 hex
      obtain ⟨r, hr, hrp, hrg⟩ := hex
      rcases List.mem_append.mp hr with hrL | hrN
      · obtain ⟨rb, hrbL, hrbp, hrbg, hrbb⟩ := h.bestExists p2 g2 ⟨r, hrL, hrp, hrg⟩
        exact ⟨rb, List.mem_append_left _ hrbL, hrbp, hrbg, hrbb⟩
      · simp only [List.mem_singleton] at hrN
        subst hrN
        simp only at hrp hrg
        obtain ⟨rb, hrbL, hrbp, hrbg, hrbb⟩ :=
          h.bestExists p g ⟨r0, hr0L, hr0.1, hr0.2.1⟩
        exact ⟨rb, List.mem_append_left _ hrbL, hrbp.trans hrp, hrbg.trans hrg, hrbb⟩
  | false =>
    -- no existing record strictly beats the new score:
    -- demote the pair's bests and save the new record as the best
    have hsave : GameScore.save L p g s att
        = L.map (demote p g)
          ++ [{ player := p, game := g, score := s, attempts := att,
                is_personal_best := true, created_at := L.length }] := by
      unfold GameScore.save
      rw [hany]
      simp
    have hle : ∀ r ∈ L, r.player = p → r.game = g → r.score ≤ s := by
      intro r hrL hp hg
      have hnd : ¬(r.player = p ∧ r.game = g ∧ s < r.score) := fun hc =>
        (List.any_eq_false.mp hany) r hrL (decide_eq_true hc)
      by_contra hgt
      exact hnd ⟨hp, hg, lt_of_not_le hgt⟩
    rw [hsave]
    constructor
    · intro r hr
      simp only [List.length_append, List.length_map, List.length_cons, List.length_nil]
      rcases List.mem_append.mp hr with hrM | hrN
      · obtain ⟨r1, hr1L, rfl⟩ := List.mem_map.mp hrM
        rw [demote_created_at]
        have := h.tsBound r1 hr1L
        omega
      · simp only [List.mem_singleton] at hrN
        subst hrN
        simp
    · intro r hr t ht heq
      rcases List.mem_append.mp hr with hrM | hrN <;>
        rcases List.mem_append.mp ht with htM | htN
      · obtain ⟨r1, hr1L, rfl⟩ := List.mem_map.mp hrM
        obtain ⟨t1, ht1L, rfl⟩ := List.mem_map.mp htM
        rw [demote_created_at, demote_created_at] at heq
        rw [h.tsInj r1 hr1L t1 ht1L heq]
      · obtain ⟨r1, hr1L, rfl⟩ := List.mem_map.mp hrM
        simp only [List.mem_singleton] at htN
        subst htN
        have := h.tsBound r1 hr1L
        simp at heq
        omega
      · obtain ⟨t1, ht1L, rfl⟩ := List.mem_map.mp htM
        simp only [List.mem_singleton] at hrN
        subst hrN
        have := h.tsBound t1 ht1L
        simp at heq
        omega
      · simp only [List.mem_singleton] at hrN htN
        rw [hrN, htN]
    · intro r hr hbest t ht hp hg
      rcases List.mem_append.mp hr with hrM | hrN
      · obtain ⟨r1, hr1L, rfl⟩ := List.mem_map.mp hrM
        obtain ⟨hb1, hnp1⟩ := (demote_best_true p g r1).mp hbest
        rcases List.mem_append.mp ht with htM | htN
        · obtain ⟨t1, ht1L, rfl⟩ := List.mem_map.mp htM
          rw [demote_player, demote_player] at hp
          rw [demote_game, demote_game] at hg
          have hm := h.bestMax r1 hr1L hb1 t1 ht1L hp hg
          rw [demote_score, demote_score, demote_created_at, demote_created_at]
          exact hm
        · simp only [List.mem_singleton] at htN
          subst htN
          exfalso
          simp only [demote_player, demote_game] at hp hg
          exact hnp1 ⟨hp.symm, hg.symm⟩
      · simp only [List.mem_singleton] at hrN
        subst hrN
        rcases List.mem_append.mp ht with htM | htN
        · obtain ⟨t1, ht1L, rfl⟩ := List.mem_map.mp htM
          simp only [demote_player] at hp
          simp only [demote_game] at hg
          have hles : t1.score ≤ s := hle t1 ht1L hp hg
          have htb := h.tsBound t1 ht1L
          constructor
          · rw [demote_score]
            exact hles
          · intro _
            rw [demote_created_at]
            exact le_of_lt htb
        · simp only [List.mem_singleton] at htN
          subst htN
          exact ⟨le_refl _, fun _ => le_refl _⟩
    · intro p2 g2 hex
      by_cases hpair : p2 = p ∧ g2 = g
      · obtain ⟨rfl, rfl⟩ := hpair
        exact ⟨_, List.mem_append_right _ (List.mem_singleton_self _), rfl, rfl, rfl⟩
      · obtain ⟨r, hr, hrp, hrg⟩ := hex
        rcases List.mem_append.mp hr with hrM | hrN
        · obtain ⟨r1, hr1L, rfl⟩ := List.mem_map.mp hrM
          rw [demote_player] at hrp
          rw [demote_game] at hrg
          obtain ⟨rb, hrbL, hrbp, hrbg, hrbb⟩ := h.bestExists p2 g2 ⟨r1, hr1L, hrp, hrg⟩
          have hne : ¬(rb.player = p ∧ rb.game = g) := by
            intro ⟨hh1, hh2⟩
            exact hpair ⟨hrbp.symm.trans hh1, hrbg.symm.trans hh2⟩
          have hmem : demote p g rb ∈ L.map (demote p g) := List.mem_map_of_mem _ hrbL
          rw [demote_eq_self_of p g rb hne] at hmem
          exact ⟨rb, List.mem_append_left _ hmem, hrbp, hrbg, hrbb⟩
        · simp only [List.mem_singleton] at hrN
          subst hrN
          simp only at hrp hrg
          exact absurd ⟨hrp.symm, hrg.symm⟩ hpair

theorem ledgerInv_runScores (calls : List (Nat × Nat × Int)) :
    LedgerInv (runScores calls) := by
  suffices h : ∀ (cs : List (Nat × Nat × Int)) (L : Ledger), LedgerInv L →
      LedgerInv (cs.foldl (fun acc c => GameScore.save acc c.1 c.2.1 c.2.2 1) L) by
    simpa [runScores] using h calls [] ledgerInv_nil
  intro cs
  induction cs with
  | nil => exact fun L hL => hL
  | cons c rest ih =>
    intro L hL
    exact ih _ (ledgerInv_save L c.1 c.2.1 c.2.2 1 hL)

/-- C1 (amended): after any sequence of `recordScore` calls, each
(player, game) pair has at most one record with
`is_personal_best = true`, that record has the maximum score among the
pair's records, ties are broken in favor of the LATEST `created_at`
record (a new record whose score equals the current best becomes the
personal best, demoting the earlier one), and every pair that has a
record has a personal best. -/
theorem gameScore_save_personal_best (calls : List (Nat × Nat × Int)) (p g : Nat) :
    (∀ r ∈ runScores calls, r.player = p → r.game = g → r.is_personal_best = true →
      ∀ t ∈ runScores calls, t.player = p → t.game = g →
        t.is_personal_best = true → r = t)
  ∧ (∀ r ∈ runScores calls, r.player = p → r.game = g → r.is_personal_best = true →
      ∀ t ∈ runScores calls, t.player = p → t.game = g →
        t.score ≤ r.score ∧ (t.score = r.score → t.created_at ≤ r.created_at))
  ∧ ((∃ r ∈ runScores calls, r.player = p ∧ r.game = g) →
      ∃ r ∈ runScores calls, r.player = p ∧ r.game = g ∧
        r.is_personal_best = true) := by
  have h := ledgerInv_runScores calls
  refine ⟨?_, ?_, h.bestExists p g⟩
  · intro r hr hrp hrg hrb t ht htp htg htb
    have h1 := h.bestMax r hr hrb t ht (htp.trans hrp.symm) (htg.trans hrg.symm)
    have h2 := h.bestMax t ht htb r hr (hrp.trans htp.symm) (hrg.trans htg.symm)
    have hsc : t.score = r.score := le_antisymm h1.1 h2.1
    have hts : r.created_at = t.created_at :=
      le_antisymm (h2.2 hsc.symm) (h1.2 hsc)
    exact h.tsInj r hr t ht hts
  · intro r hr hrp hrg hrb t ht htp htg
    exact h.bestMax r hr hrb t ht (htp.trans hrp.symm) (htg.trans hrg.symm)

/-- C1 counterexample: two saves of the same score 80 for one
(player, game) pair.  The claim says the tie is broken in favor of the
earliest record, but after the second save the personal best is the
LATER record (`created_at = 1`) while the earlier equal-scoring record
(`created_at = 0`) has been demoted. -/
theorem gameScore_save_tie_goes_to_latest :
    ∃ r, r ∈ runScores [(0, 0, 80), (0, 0, 80)] ∧ r.is_personal_best = true ∧
      ∃ t, t ∈ runScores [(0, 0, 80), (0, 0, 80)] ∧ t.player = r.player ∧
        t.game = r.game ∧ t.score = r.score ∧ t.created_at < r.created_at ∧
        t.is_personal_best = false := by
  decide

/-- Witness for C1 at the spec's scenario of sequential scores 80 then
95 for one pair: some record of the pair is the personal best. -/
theorem gameScore_save_personal_best_witness :
    ∃ r ∈ runScores [(0, 0, 80), (0, 0, 95)], r.player = 0 ∧ r.game = 0 ∧
      r.is_personal_best = true :=
  (gameScore_save_personal_best [(0, 0, 80), (0, 0, 95)] 0 0).2.2
    ⟨{ player := 0, game := 0, score := 80, attempts := 1,
       is_personal_best := false, created_at := 0 }, by decide, rfl, rfl⟩

/-- C3 (amended): immediately after a `recordScore` write,
`update_player_stats` leaves the player's aggregates equal to the
count, sum and attained maximum over the full set of that player's
records; but the aggregates are NOT only derived by this
recomputation: the number-guess view's completion path hand-increments
`total_games` and `total_score` on top of the freshly recomputed
values. -/
theorem recordScore_aggregates (L : Ledger) (p g : Nat) (s : Int) (att : Nat) :
    (update_player_stats (GameScore.save L p g s att) p).total_games
        = ((GameScore.save L p g s att).filter fun r => decide (r.player = p)).length
  ∧ (update_player_stats (GameScore.save L p g s att) p).total_score
        = (((GameScore.save L p g s att).filter fun r => decide (r.player = p)).map
            fun r => r.score).sum
  ∧ (∀ r ∈ GameScore.save L p g s att, r.player = p →
      r.score ≤ (update_player_stats (GameScore.save L p g s att) p).highest_score)
  ∧ (∃ r ∈ GameScore.save L p g s att, r.player = p ∧
      r.score = (update_player_stats (GameScore.save L p g s att) p).highest_score)
  ∧ (number_guess_complete L p g att).2.total_games
        = (update_player_stats (number_guess_complete L p g att).1 p).total_games + 1
  ∧ (number_guess_complete L p g att).2.total_score
        = (update_player_stats (number_guess_complete L p g att).1 p).total_score
          + max (100 - (att : Int)) 10 := by
  have hAnti : Std.Antisymm (α := Int) (· ≤ ·) := ⟨fun h1 h2 => le_antisymm h1 h2⟩
  have hnew : ∃ r, r ∈ GameScore.save L p g s att ∧ r.player = p := by
    unfold GameScore.save
    exact ⟨_, List.mem_append_right _ (List.mem_singleton_self _), rfl⟩
  obtain ⟨rn, hrn, hrnp⟩ := hnew
  have hrnf : rn ∈ (GameScore.save L p g s att).filter fun r => decide (r.player = p) :=
    List.mem_filter.mpr ⟨hrn, decide_eq_true hrnp⟩
  have hrns : rn.score ∈ ((GameScore.save L p g s att).filter
      fun r => decide (r.player = p)).map fun r => r.score :=
    List.mem_map_of_mem _ hrnf
  rcases hmx : (((GameScore.save L p g s att).filter fun r => decide (r.player = p)).map
      fun r => r.score).max? with _ | m
  · rw [List.max?_eq_none_iff] at hmx
    rw [hmx] at hrns
    exact absurd hrns (List.not_mem_nil _)
  · have hgetd : (update_player_stats (GameScore.save L p g s att) p).highest_score = m := by
      simp only [update_player_stats]
      rw [hmx]
      rfl
    have hmx2 := hmx
    rw [List.max?_eq_some_iff] at hmx2
    · obtain ⟨hmem, hub⟩ := hmx2
      refine ⟨rfl, rfl, ?_, ?_, rfl, rfl⟩
      · intro r hr hrp
        have hrf : r ∈ (GameScore.save L p g s att).filter
            fun x => decide (x.player = p) :=
          List.mem_filter.mpr ⟨hr, decide_eq_true hrp⟩
        have hrs : r.score ∈ ((GameScore.save L p g s att).filter
            fun x => decide (x.player = p)).map fun x => x.score :=
          List.mem_map_of_mem _ hrf
        rw [hgetd]
        exact hub _ hrs
      · obtain ⟨r3, hr3f, hr3m⟩ := List.mem_map.mp hmem
        obtain ⟨hr3L, hr3p⟩ := List.mem_filter.mp hr3f
        exact ⟨r3, hr3L, of_decide_eq_true hr3p, by rw [hgetd, hr3m]⟩
    · exact Int.le_refl
    · exact fun a b => max_choice a b
    · exact fun a b c => max_le_iff

/-- C3 counterexample: one completed number-guess round from an empty
table (3 attempts, score 97).  The stored player aggregates afterwards
say 2 games and 194 points, while the recomputation over the single
stored record gives 1 game and 97 points: the view hand-edited the
aggregates after `update_player_stats` recomputed them. -/
theorem player_stats_hand_edited_counterexample :
    (number_guess_complete [] 0 0 3).2.total_games = 2
  ∧ ((number_guess_complete [] 0 0 3).1.filter fun r => decide (r.player = 0)).length = 1
  ∧ (number_guess_complete [] 0 0 3).2.total_score = 194
  ∧ (((number_guess_complete [] 0 0 3).1.filter fun r => decide (r.player = 0)).map
      fun r => r.score).sum = 97 := by
  decide

/-- Witness for C3: after saving a 97-point record for player 0 into
an empty table, the recomputed highest score bounds that record's
score. -/
theorem recordScore_aggregates_witness :
    (97 : Int) ≤ (update_player_stats (GameScore.save [] 0 0 97 3) 0).highest_score :=
  (recordScore_aggregates [] 0 0 97 3).2.2.1
    { player := 0, game := 0, score := 97, attempts := 3,
      is_personal_best := true, created_at := 0 } (by decide) rfl

end Games
